import Mathlib

/-!
Shallow embedding of the structural parser in
`src/analyzer/JavaClassAnalyzer.ts` of the java-class-analyzer MCP server.

Strings are modelled as `List Char` at the character level (`String.data`),
JavaScript numbers used as counters as `Int`/`Nat`, and the JavaScript
object used as a slot-to-name map as an association list where the most
recent insertion wins.  JavaScript whitespace (for `trim`, `\s`) is
modelled as the ASCII whitespace characters, which covers all disassembler
output.  Regular expressions from the source are embedded as deterministic
scanners that agree with the JavaScript engine on the inputs the parser
feeds them (argued per pattern in the comments below).
-/

namespace JavaClassAnalyzer

/-- Character class for JavaScript whitespace (ASCII fragment): matches
`trim` and `\s` on disassembler text. -/
def isJsSpace (c : Char) : Bool :=
  c = ' ' || c = '\t' || c = '\n' || c = '\r' || c = '\x0b' || c = '\x0c'

/-- Character class for the regex `\w`: ASCII letters, digits, underscore. -/
def isWordChar (c : Char) : Bool :=
  c.isAlpha || c.isDigit || c = '_'

/-- Character class for `[a-zA-Z_$]`, the first character of a Java name. -/
def isNameStart (c : Char) : Bool :=
  c.isAlpha || c = '_' || c = '$'

/-- Character class for `[a-zA-Z0-9_$.]`, the later characters of a
qualified Java name. -/
def isNameChar (c : Char) : Bool :=
  c.isAlpha || c.isDigit || c = '_' || c = '$' || c = '.'

/-- JavaScript `String.prototype.trim` on a character list. -/
def jsTrimL (cs : List Char) : List Char :=
  ((cs.dropWhile isJsSpace).reverse.dropWhile isJsSpace).reverse

/-- JavaScript `startsWith`. -/
def startsWithL (p : String) (cs : List Char) : Bool :=
  p.data.isPrefixOf cs

/-- JavaScript `indexOf` for a single character: index of the first
occurrence, `none` when absent (the source's `-1`). -/
def idxOfChar? (c : Char) : List Char → Option Nat
  | [] => none
  | d :: rest => if d = c then some 0 else (idxOfChar? c rest).map (· + 1)

/-- JavaScript `lastIndexOf` for a single character. -/
def lastIdxOfChar? (c : Char) (cs : List Char) : Option Nat :=
  (idxOfChar? c cs.reverse).map (fun i => cs.length - 1 - i)

/-- JavaScript `substring`: swaps its endpoints when given in reverse
order and clamps them to the string length. -/
def jsSubstring (cs : List Char) (a b : Nat) : List Char :=
  (cs.take (max a b)).drop (min a b)

/-- JavaScript `split` on a single separator character: always returns at
least one (possibly empty) fragment. -/
def splitOnChar (sep : Char) : List Char → List (List Char)
  | [] => [[]]
  | c :: rest =>
    if c = sep then [] :: splitOnChar sep rest
    else
      match splitOnChar sep rest with
      | [] => [[c]]
      | f :: fs => (c :: f) :: fs

/-- Numeric value of a digit string, as computed by `parseInt` on the
all-digit capture of the variable-table regex. -/
def natOfDigits (ds : List Char) : Nat :=
  ds.foldl (fun n c => n * 10 + (c.toNat - 48)) 0

/-- Data model: `ClassField` from the source (never constructed by the
parser, kept for fidelity of the `ClassAnalysis` record). -/
structure ClassField where
  name : String
  type : String
  modifiers : List String
deriving Repr, DecidableEq

/-- Data model: `ClassMethod` from the source. -/
structure ClassMethod where
  name : String
  returnType : String
  parameters : List String
  modifiers : List String
deriving Repr, DecidableEq

/-- Data model: `ClassAnalysis` from the source. -/
structure ClassAnalysis where
  className : String
  packageName : String
  modifiers : List String
  superClass : Option String
  interfaces : List String
  fields : List ClassField
  methods : List ClassMethod
deriving Repr, DecidableEq

/-- Loop body of `splitParameters`: `current` is the accumulated fragment,
`depth` the angle-bracket nesting counter (a JavaScript number, so it may
go negative).  At a top-level comma the trimmed fragment is pushed even
when empty; the final fragment is pushed only when nonempty. -/
def splitParametersGo : List Char → List Char → Int → List (List Char)
  | [], current, _ => if jsTrimL current = [] then [] else [jsTrimL current]
  | c :: rest, current, depth =>
    if c = '<' then splitParametersGo rest (current ++ [c]) (depth + 1)
    else if c = '>' then splitParametersGo rest (current ++ [c]) (depth - 1)
    else if c = ',' ∧ depth = 0 then jsTrimL current :: splitParametersGo rest [] depth
    else splitParametersGo rest (current ++ [c]) depth

/-- The source's `splitParameters`, generically splitting a raw parameter
list on top-level commas. -/
def splitParametersL (cs : List Char) : List (List Char) :=
  splitParametersGo cs [] 0

/-- String-level wrapper for `splitParameters`. -/
def splitParameters (s : String) : List String :=
  (splitParametersL s.data).map String.mk

/-- Parameter extraction as performed inside `parseMethodFromJavap`: trim
the raw in-parentheses text, return no parameters when it is empty, and
otherwise split, trim each fragment and drop empty fragments. -/
def extractParametersL (raw : List Char) : List String :=
  let paramsStr := jsTrimL raw
  if paramsStr = [] then []
  else (((splitParametersL paramsStr).map jsTrimL).filter (fun p => p ≠ [])).map String.mk

/-- The modifier vocabulary scanned from the front of a method line, in
the source's array order. -/
def methodModifierWords : List String :=
  ["public", "private", "protected", "static", "final", "abstract", "synchronized", "native"]

/-- One round of the modifier-stripping `while` loop: the first vocabulary
word (in array order) such that word-plus-space begins the remaining
line. -/
def findModifier (cs : List Char) : Option String :=
  methodModifierWords.find? (fun m => (m.data ++ [' ']).isPrefixOf cs)

/-- Fuel-driven embedding of the modifier-stripping loop; returns the
recorded modifiers and the `startIndex` of the first non-modifier
character.  The fuel bounds the loop by the line length, which the loop
never reaches because each round consumes at least seven characters. -/
def stripModsGo : Nat → List Char → List String → Nat → List String × Nat
  | 0, _, acc, idx => (acc, idx)
  | fuel + 1, cs, acc, idx =>
    match findModifier cs with
    | none => (acc, idx)
    | some m => stripModsGo fuel (cs.drop (m.length + 1)) (acc ++ [m]) (idx + m.length + 1)

/-- Modifier stripping for a method line. -/
def stripMods (cs : List Char) : List String × Nat :=
  stripModsGo (cs.length + 1) cs [] 0

/-- The source's `parseMethodFromJavap` on a (trimmed) line: strip leading
modifiers, locate the first left parenthesis and the first right
parenthesis after it, split the text in between the stripped part and the
left parenthesis on its last space into return type and method name, and
extract parameters; `none` models the `null` returns. -/
def parseMethodFromJavapL (line : List Char) : Option ClassMethod :=
  let t := jsTrimL line
  let sm := stripMods t
  match idxOfChar? '(' t with
  | none => none
  | some parenIndex =>
    match idxOfChar? ')' (t.drop parenIndex) with
    | none => none
    | some k =>
      let closeParenIndex := parenIndex + k
      let beforeParen := jsTrimL (jsSubstring t sm.2 parenIndex)
      match lastIdxOfChar? ' ' beforeParen with
      | none => none
      | some lastSpaceIndex =>
        some
          { name := String.mk (jsTrimL (beforeParen.drop (lastSpaceIndex + 1)))
            returnType := String.mk (jsTrimL (jsSubstring beforeParen 0 lastSpaceIndex))
            parameters := extractParametersL (jsSubstring t (parenIndex + 1) closeParenIndex)
            modifiers := sm.1 }

/-- String-level wrapper keeping the source name. -/
def parseMethodFromJavap (line : String) : Option ClassMethod :=
  parseMethodFromJavapL line.data

/-- The class-declaration modifier vocabulary of the regex alternation in
`parseClassDeclaration`. -/
def classModVocab : List String :=
  ["public", "private", "protected", "static", "final", "abstract", "strictfp"]

/-- Test of the global regex at one position: the vocabulary word is a
literal prefix here, the previous character (if any) is a non-word
character — `prevWord` records whether it was a word character, which is
all the leading `\b` inspects, with the start of the string counting as
non-word — and the character after the word (if any) is a non-word
character (the trailing word boundary). -/
def vocabHere (w : String) (prevWord : Bool) (cs : List Char) : Bool :=
  w.data.isPrefixOf cs && !prevWord &&
    (match cs.drop w.data.length with | [] => true | d :: _ => !isWordChar d)

/-- Scanner for the global regex collecting word-boundary-delimited
vocabulary words left to right.  `skip` counts characters still covered by
the previous match (the engine resumes after a match); `prevWord` is the
word-ness of the character before the current position, for the leading
word boundary.  A match emits the word and skips its remaining
characters, matching the JavaScript engine because no vocabulary word is
a prefix of another. -/
def scanVocabGo (vocab : List String) : Bool → Nat → List Char → List String
  | _, _, [] => []
  | _, k + 1, c :: rest => scanVocabGo vocab (isWordChar c) k rest
  | prevWord, 0, c :: rest =>
    match vocab.find? (fun w => vocabHere w prevWord (c :: rest)) with
    | some w => w :: scanVocabGo vocab (isWordChar c) (w.data.length - 1) rest
    | none => scanVocabGo vocab (isWordChar c) 0 rest

/-- All class-declaration modifier occurrences of a line, in order: the
source's `line.match(...)` with the modifier alternation, coerced to the
empty list when the regex finds nothing. -/
def classDeclModsL (cs : List Char) : List String :=
  scanVocabGo classModVocab false 0 cs

/-- Literal-prefix consumption for embedded regex pieces. -/
def dropLit (w : String) (cs : List Char) : Option (List Char) :=
  if w.data.isPrefixOf cs then some (cs.drop w.data.length) else none

/-- Consumption of the regex piece for one-or-more whitespace characters,
with maximal munch (backtracking to fewer characters never helps the
patterns below, whose continuations reject whitespace). -/
def spaces1 (cs : List Char) : Option (List Char) :=
  let k := (cs.takeWhile isJsSpace).length
  if k = 0 then none else some (cs.drop k)

/-- Capture of a qualified Java name, the regex piece for a name-start
character followed by a greedy run of name characters. -/
def nameToken (cs : List Char) : Option (List Char) :=
  match cs with
  | [] => none
  | c :: rest => if isNameStart c then some (c :: rest.takeWhile isNameChar) else none

/-- Leftmost-match scan: try the position matcher at every suffix, left to
right, as a JavaScript regex engine does. -/
def scanFirst {α : Type} (f : List Char → Option α) : List Char → Option α
  | [] => f []
  | c :: rest => (f (c :: rest)).orElse (fun _ => scanFirst f rest)

/-- Position matcher for the declaration-keyword part of the class-name
regex: one of the keywords, whitespace, then the name capture. -/
def matchDeclCore (cs : List Char) : Option (List Char) :=
  ((dropLit "class" cs).orElse (fun _ => (dropLit "interface" cs).orElse (fun _ => dropLit "enum" cs))).bind
    (fun r => (spaces1 r).bind nameToken)

/-- Position matcher for the full class-name regex: the optional group for
a leading `public` with whitespace is tried first and the bare keyword
form is the fallback at the same position. -/
def matchClassNameAt (cs : List Char) : Option (List Char) :=
  (match dropLit "public" cs with
   | some r => (spaces1 r).bind matchDeclCore
   | none => none).orElse (fun _ => matchDeclCore cs)

/-- Position matcher for the superclass regex: the literal keyword,
whitespace, then the name capture. -/
def matchExtendsAt (cs : List Char) : Option (List Char) :=
  (dropLit "extends" cs).bind (fun r => (spaces1 r).bind nameToken)

/-- Position matcher for the interface-list regex: the literal keyword,
one-or-more whitespace, then a nonempty greedy capture of characters other
than an opening curly brace.  When the capture after maximal whitespace
would be empty, the engine backtracks one whitespace character into the
capture, which requires at least two whitespace characters. -/
def matchImplementsAt (cs : List Char) : Option (List Char) :=
  match dropLit "implements" cs with
  | none => none
  | some rest =>
    let sp := rest.takeWhile isJsSpace
    if sp.length = 0 then none
    else
      let cap := (rest.drop sp.length).takeWhile (fun c => c ≠ '\x7b')
      if cap ≠ [] then some cap
      else if 2 ≤ sp.length then some [sp.getLastD ' ']
      else none

/-- The source's `parseClassDeclaration` on a trimmed declaration line:
overwrite the modifiers, override package and simple name when the
captured qualified name contains a dot, and record the optional superclass
and interface list. -/
def parseClassDeclaration (t : List Char) (a : ClassAnalysis) : ClassAnalysis :=
  let a1 := { a with modifiers := classDeclModsL t }
  let a2 :=
    match scanFirst matchClassNameAt t with
    | some nm =>
      let parts := splitOnChar '.' nm
      if parts.length > 1 then
        { a1 with
          packageName := String.intercalate "." (parts.dropLast.map String.mk)
          className := String.mk (parts.getLastD []) }
      else a1
    | none => a1
  let a3 :=
    match scanFirst matchExtendsAt t with
    | some s => { a2 with superClass := some (String.mk s) }
    | none => a2
  match scanFirst matchImplementsAt t with
  | some cap =>
    { a3 with
      interfaces := (((splitOnChar ',' cap).map jsTrimL).filter (fun i => i ≠ [])).map String.mk }
  | none => a3

/-- Detection of a class-declaration line (the first branch of the line
loop). -/
def isClassDeclLine (t : List Char) : Bool :=
  startsWithL "public class" t || startsWithL "public interface" t || startsWithL "public enum" t

/-- Detection of a method-signature line (the second branch of the line
loop): leading access modifier `public`, and both parentheses somewhere in
the line. -/
def isMethodLine (t : List Char) : Bool :=
  startsWithL "public " t && t.contains '(' && t.contains ')'

/-- Deterministic embedding of the variable-table data-line regex on the
trimmed nonempty lines it is applied to: optional whitespace, three digit
runs, a word-character run (the name), and a nonempty remainder (the
type), each pair separated by whitespace; returns the slot capture and the
name capture.  Maximal munch agrees with the engine because the digit,
whitespace and word classes are pairwise disjoint and a trimmed line
cannot end in whitespace. -/
def lvtDataMatch (t : List Char) : Option (Nat × List Char) :=
  let r0 := t.dropWhile isJsSpace
  let d1 := r0.takeWhile Char.isDigit
  if d1 = [] then none else
  let r1 := r0.drop d1.length
  let w1 := r1.takeWhile isJsSpace
  if w1 = [] then none else
  let r2 := r1.drop w1.length
  let d2 := r2.takeWhile Char.isDigit
  if d2 = [] then none else
  let r3 := r2.drop d2.length
  let w2 := r3.takeWhile isJsSpace
  if w2 = [] then none else
  let r4 := r3.drop w2.length
  let d3 := r4.takeWhile Char.isDigit
  if d3 = [] then none else
  let r5 := r4.drop d3.length
  let w3 := r5.takeWhile isJsSpace
  if w3 = [] then none else
  let r6 := r5.drop w3.length
  let nm := r6.takeWhile isWordChar
  if nm = [] then none else
  let r7 := r6.drop nm.length
  let w4 := r7.takeWhile isJsSpace
  if w4 = [] then none else
  if r7.drop w4.length = [] then none else
  some (natOfDigits d3, nm)

/-- Lookup in the pending slot-to-name map; insertion conses, so the first
hit is the most recent assignment, as for a JavaScript object key. -/
def lookupSlot (pending : List (Nat × String)) (j : Nat) : Option String :=
  (pending.find? (fun e => e.1 = j)).map (fun e => e.2)

/-- Synthesized parameter name for position `j` (0-based). -/
def synthName (j : Nat) : String :=
  "param" ++ toString (j + 1)

/-- The parameter-rewrite loop of the flush: every position gets its
recovered name or, failing that, the synthesized one, appended to the
stored descriptor with a space. -/
def flushParams (pending : List (Nat × String)) (ps : List String) : List String :=
  ps.enum.map (fun e => e.2 ++ " " ++ (lookupSlot pending e.1).getD (synthName e.1))

/-- The guarded flush from the source: the rewrite runs only when the
pending map is nonempty. -/
def flushIfPending (pending : List (Nat × String)) (m : ClassMethod) : ClassMethod :=
  if pending = [] then m
  else { m with parameters := flushParams pending m.parameters }

/-- Parser state across lines.  The method most recently pushed into the
output list is aliased by `currentMethod` in the source and may still be
rewritten; it is held in `current` here and appended to
`analysis.methods` once it can no longer change. -/
structure ParseState where
  analysis : ClassAnalysis
  current : Option ClassMethod
  inLocalVariableTable : Bool
  methodParameters : List (Nat × String)
deriving Repr, DecidableEq

/-- Detection of the method-end condition of the line loop (its first
disjunct repeats the method-line test and is unreachable there because
method lines are consumed by an earlier `continue`). -/
def isEndLine (t : List Char) : Bool :=
  isMethodLine t || startsWithL "\x7d" t || startsWithL "SourceFile:" t

/-- The method-end block of the line loop: flush the current method when
the pending map is nonempty, then clear the current method, the table
flag and the pending map. -/
def endPhase (st : ParseState) (t : List Char) : ParseState :=
  match st.current with
  | none => st
  | some m =>
    if isEndLine t then
      { analysis :=
          { st.analysis with
            methods := st.analysis.methods ++ [flushIfPending st.methodParameters m] }
        current := none
        inLocalVariableTable := false
        methodParameters := [] }
    else st

/-- The variable-table block of the line loop followed (without an
intervening `continue` on its data-line path) by the method-end block. -/
def lvtAndEnd (st : ParseState) (t : List Char) : ParseState :=
  match st.current with
  | some m =>
    if st.inLocalVariableTable then
      if startsWithL "Start" t || startsWithL "Slot" t then st
      else if t = [] then
        { st with
          current := some (flushIfPending st.methodParameters m)
          inLocalVariableTable := false
          methodParameters := [] }
      else
        endPhase
          (match lvtDataMatch t with
           | some p =>
             if p.1 < m.parameters.length then
               { st with methodParameters := (p.1, String.mk p.2) :: st.methodParameters }
             else st
           | none => st) t
    else endPhase st t
  | none => endPhase st t

/-- One iteration of the line loop of `parseJavapOutput` on the trimmed
line, in the source's branch order.  On a method line the old current
method can no longer be rewritten and is appended to the output list; a
successful parse resets the pending map, a `null` parse leaves it
untouched; neither resets the table flag. -/
def stepTrimmed (st : ParseState) (t : List Char) : ParseState :=
  if isClassDeclLine t then
    { st with analysis := parseClassDeclaration t st.analysis }
  else if isMethodLine t then
    match parseMethodFromJavapL t with
    | some m =>
      { st with
        analysis := { st.analysis with methods := st.analysis.methods ++ st.current.toList }
        current := some m
        methodParameters := [] }
    | none =>
      { st with
        analysis := { st.analysis with methods := st.analysis.methods ++ st.current.toList }
        current := none }
  else if t = "LocalVariableTable:".data then
    { st with inLocalVariableTable := true }
  else
    lvtAndEnd st t

/-- One iteration of the line loop on the raw line: the loop first trims
the line, then dispatches on the trimmed text. -/
def stepLine (st : ParseState) (line : String) : ParseState :=
  stepTrimmed st (jsTrimL line.data)

/-- Simple name derived from the caller-passed identifier:
`className.split(.).pop() || className`. -/
def lastSegment (cid : String) : String :=
  match (splitOnChar '.' cid.data).getLastD [] with
  | [] => cid
  | l => String.mk l

/-- The freshly initialized `ClassAnalysis` of `parseJavapOutput`. -/
def initAnalysis (className : String) : ClassAnalysis :=
  { className := lastSegment className
    packageName := ""
    modifiers := []
    superClass := none
    interfaces := []
    fields := []
    methods := [] }

/-- The methods visible in the output list at a given state: the finalized
ones followed by the still-aliased current one. -/
def liveMethods (st : ParseState) : List ClassMethod :=
  st.analysis.methods ++ st.current.toList

/-- The line loop of `parseJavapOutput` over an already split line list;
at the end of input the current method is left as last pushed (no flush
runs after the loop). -/
def parseLines (lines : List String) (className : String) : ClassAnalysis :=
  let fin := lines.foldl stepLine
    { analysis := initAnalysis className
      current := none
      inLocalVariableTable := false
      methodParameters := [] }
  { fin.analysis with methods := liveMethods fin }

/-- The source's `parseJavapOutput`: split the disassembly text on
newlines and run the line loop. -/
def parseJavapOutput (output : String) (className : String) : ClassAnalysis :=
  parseLines ((splitOnChar '\n' output.data).map String.mk) className

/-- The source's `findSubClasses` loop, with `analyzeClass` (an external
`javap` invocation) abstracted as an oracle; a thrown analysis failure is
`none` and is caught and ignored by the loop. -/
def findSubClasses (analyze : String → Option ClassAnalysis) (className : String)
    (allClasses : List String) : List String :=
  allClasses.foldl
    (fun acc cls =>
      match analyze cls with
      | some a => if a.superClass = some className then acc ++ [cls] else acc
      | none => acc)
    []

/-! ## Shared lemmas about the embedded string primitives -/

theorem dropWhile_dropWhile (p : Char → Bool) (l : List Char) :
    (l.dropWhile p).dropWhile p = l.dropWhile p := by
  induction l with
  | nil => rfl
  | cons a l ih =>
    by_cases h : p a
    · simp [List.dropWhile_cons, h, ih]
    · simp [List.dropWhile_cons, h]

theorem head?_dropWhile (p : Char → Bool) (l : List Char) (a : Char)
    (h : (l.dropWhile p).head? = some a) : p a = false := by
  induction l with
  | nil => simp at h
  | cons b l ih =>
    by_cases hb : p b
    · simp [List.dropWhile_cons, hb] at h
      exact ih h
    · simp [List.dropWhile_cons, hb] at h
      simpa [h] using hb

theorem dropWhile_of_head? (p : Char → Bool) (l : List Char)
    (h : ∀ a, l.head? = some a → p a = false) : l.dropWhile p = l := by
  cases l with
  | nil => rfl
  | cons a l => simp [List.dropWhile_cons, h a rfl]

theorem getLast?_dropWhile (p : Char → Bool) (l : List Char)
    (h : l.dropWhile p ≠ []) : (l.dropWhile p).getLast? = l.getLast? := by
  induction l with
  | nil => simp at h
  | cons a l ih =>
    by_cases ha : p a
    · have hl : l.dropWhile p ≠ [] := by
        simpa [List.dropWhile_cons, ha] using h
      have hlne : l ≠ [] := by
        intro hnil
        exact hl (by simp [hnil])
      rw [List.dropWhile_cons, if_pos ha, ih hl, List.getLast?_cons]
      cases hgl : l.getLast? with
      | none => exact absurd (List.getLast?_eq_none_iff.mp hgl) hlne
      | some c => simp
    · simp [List.dropWhile_cons, ha]

theorem jsTrimL_head? (x : List Char) (c : Char) (h : (jsTrimL x).head? = some c) :
    isJsSpace c = false := by
  unfold jsTrimL at h
  rw [List.head?_reverse] at h
  by_cases hv : ((x.dropWhile isJsSpace).reverse.dropWhile isJsSpace) = []
  · rw [hv] at h; simp at h
  · rw [getLast?_dropWhile _ _ hv, List.getLast?_reverse] at h
    exact head?_dropWhile _ _ _ h

theorem jsTrimL_getLast? (x : List Char) (c : Char) (h : (jsTrimL x).getLast? = some c) :
    isJsSpace c = false := by
  unfold jsTrimL at h
  rw [← List.head?_reverse, List.reverse_reverse] at h
  exact head?_dropWhile _ _ _ h

theorem jsTrimL_idem (x : List Char) : jsTrimL (jsTrimL x) = jsTrimL x := by
  have h1 : (jsTrimL x).dropWhile isJsSpace = jsTrimL x :=
    dropWhile_of_head? _ _ (fun a ha => jsTrimL_head? x a ha)
  have h2 : (jsTrimL x).reverse.dropWhile isJsSpace = (jsTrimL x).reverse := by
    refine dropWhile_of_head? _ _ (fun a ha => ?_)
    rw [List.head?_reverse] at ha
    exact jsTrimL_getLast? x a ha
  unfold jsTrimL
  show ((((jsTrimL x).dropWhile isJsSpace).reverse.dropWhile isJsSpace)).reverse = jsTrimL x
  rw [h1, h2, List.reverse_reverse]

theorem jsTrimL_all_space (x : List Char) (h : ∀ c ∈ x, isJsSpace c = true) :
    jsTrimL x = [] := by
  unfold jsTrimL
  rw [List.dropWhile_eq_nil_iff.mpr h]
  rfl

theorem idxOfChar?_eq_none (c : Char) (l : List Char) (h : c ∉ l) :
    idxOfChar? c l = none := by
  induction l with
  | nil => rfl
  | cons d l ih =>
    have hdc : ¬ d = c := fun hd => h (by simp [hd])
    rw [idxOfChar?, if_neg hdc, ih (fun hm => h (List.mem_cons_of_mem _ hm))]
    rfl

theorem lastIdxOfChar?_eq_none (c : Char) (l : List Char) (h : c ∉ l) :
    lastIdxOfChar? c l = none := by
  rw [lastIdxOfChar?, idxOfChar?_eq_none c _ (by simpa using h)]
  rfl

theorem beq_false_of_digit (d c : Char) (hd : d.isDigit = false) (hc : c.isDigit = true) :
    (d == c) = false := by
  cases h : (d == c)
  · rfl
  · have hdc := eq_of_beq h
    subst hdc
    rw [hc] at hd
    exact absurd hd (by simp)

theorem startsWithL_false_of_beq (w : String) (d : Char) (ds : List Char) (c : Char)
    (cs : List Char) (hw : w.data = d :: ds) (hne : (d == c) = false) :
    startsWithL w (c :: cs) = false := by
  rw [startsWithL, hw]
  simp [List.isPrefixOf, hne]

/-- Branch facts for a trimmed line that starts with a digit, as every
variable-table data line does: none of the keyword-triggered branches of
the line loop can fire on it. -/
theorem digit_line_branches (c : Char) (cs : List Char) (hc : c.isDigit = true) :
    isClassDeclLine (c :: cs) = false ∧ isMethodLine (c :: cs) = false ∧
      ¬ ((c :: cs : List Char) = "LocalVariableTable:".data) ∧
      startsWithL "Start" (c :: cs) = false ∧ startsWithL "Slot" (c :: cs) = false ∧
      isEndLine (c :: cs) = false := by
  have hp : ('p' == c) = false := beq_false_of_digit _ _ (by decide) hc
  have hL : ('L' == c) = false := beq_false_of_digit _ _ (by decide) hc
  have hS : ('S' == c) = false := beq_false_of_digit _ _ (by decide) hc
  have hB : ('\x7d' == c) = false := beq_false_of_digit _ _ (by decide) hc
  have w1 := startsWithL_false_of_beq "public class" 'p' _ c cs rfl hp
  have w2 := startsWithL_false_of_beq "public interface" 'p' _ c cs rfl hp
  have w3 := startsWithL_false_of_beq "public enum" 'p' _ c cs rfl hp
  have w4 := startsWithL_false_of_beq "public " 'p' _ c cs rfl hp
  have w5 := startsWithL_false_of_beq "Start" 'S' _ c cs rfl hS
  have w6 := startsWithL_false_of_beq "Slot" 'S' _ c cs rfl hS
  have w7 := startsWithL_false_of_beq "\x7d" '\x7d' _ c cs rfl hB
  have w8 := startsWithL_false_of_beq "SourceFile:" 'S' _ c cs rfl hS
  refine ⟨by simp [isClassDeclLine, w1, w2, w3], by simp [isMethodLine, w4], ?_,
    w5, w6, by simp [isEndLine, isMethodLine, w4, w7, w8]⟩
  intro h
  rw [show ("LocalVariableTable:").data = 'L' :: ("ocalVariableTable:").data from rfl] at h
  injection h with h1 _
  rw [h1] at hc
  exact absurd hc (by decide)

theorem lvtDataMatch_digit (t : List Char) (p : Nat × List Char)
    (h : lvtDataMatch t = some p) :
    ∃ c cs, t.dropWhile isJsSpace = c :: cs ∧ c.isDigit = true := by
  cases hd : t.dropWhile isJsSpace with
  | nil =>
    rw [lvtDataMatch, hd] at h
    simp at h
  | cons c cs =>
    refine ⟨c, cs, rfl, ?_⟩
    by_cases hc : c.isDigit
    · exact hc
    · rw [lvtDataMatch, hd] at h
      simp [List.takeWhile_cons, hc] at h

theorem jsTrimL_match_digit (x : List Char) (p : Nat × List Char)
    (h : lvtDataMatch (jsTrimL x) = some p) :
    ∃ c cs, jsTrimL x = c :: cs ∧ c.isDigit = true := by
  obtain ⟨c, cs, hd, hdig⟩ := lvtDataMatch_digit _ _ h
  have ht : (jsTrimL x).dropWhile isJsSpace = jsTrimL x :=
    dropWhile_of_head? _ _ (fun a ha => jsTrimL_head? x a ha)
  exact ⟨c, cs, by rw [← ht, hd], hdig⟩

/-! ## C3: the parser never produces fields -/

theorem parseClassDeclaration_fields (t : List Char) (a : ClassAnalysis) :
    (parseClassDeclaration t a).fields = a.fields := by
  unfold parseClassDeclaration
  cases scanFirst matchClassNameAt t <;>
    cases scanFirst matchExtendsAt t <;>
      cases scanFirst matchImplementsAt t <;>
        simp <;> split <;> simp

theorem endPhase_fields (st : ParseState) (t : List Char) :
    (endPhase st t).analysis.fields = st.analysis.fields := by
  unfold endPhase
  cases st.current <;> simp
  split <;> simp

theorem lvtAndEnd_fields (st : ParseState) (t : List Char) :
    (lvtAndEnd st t).analysis.fields = st.analysis.fields := by
  unfold lvtAndEnd
  cases st.current with
  | none => exact endPhase_fields _ _
  | some m =>
    by_cases h1 : st.inLocalVariableTable <;> simp [h1]
    · split
      · rfl
      · split
        · rfl
        · split <;> [skip; skip] <;> first
          | exact endPhase_fields _ _
          | (split <;> exact endPhase_fields _ _)
    · exact endPhase_fields _ _

theorem stepTrimmed_fields (st : ParseState) (t : List Char) :
    (stepTrimmed st t).analysis.fields = st.analysis.fields := by
  unfold stepTrimmed
  split
  · exact parseClassDeclaration_fields _ _
  · split
    · split <;> simp
    · split
      · rfl
      · exact lvtAndEnd_fields _ _

theorem stepLine_fields (st : ParseState) (l : String) :
    (stepLine st l).analysis.fields = st.analysis.fields :=
  stepTrimmed_fields st (jsTrimL l.data)

theorem foldl_stepLine_fields (lines : List String) (st : ParseState) :
    (lines.foldl stepLine st).analysis.fields = st.analysis.fields := by
  induction lines generalizing st with
  | nil => rfl
  | cons l lines ih => rw [List.foldl_cons, ih, stepLine_fields]

/-- C3: for every input disassembly text and class identifier, the fields
sequence of the returned `ClassAnalysis` is the empty sequence — no rule
of the parser ever constructs or appends a field description. -/
theorem parse_fields_empty (output : String) (className : String) :
    (parseJavapOutput output className).fields = [] := by
  unfold parseJavapOutput parseLines
  simp [foldl_stepLine_fields, initAnalysis]

/-! ## C9: subclass search attempts every candidate -/

theorem findSubClasses_go (analyze : String → Option ClassAnalysis) (className : String)
    (l : List String) (acc : List String) :
    l.foldl
      (fun acc cls =>
        match analyze cls with
        | some a => if a.superClass = some className then acc ++ [cls] else acc
        | none => acc) acc
      = acc ++ l.filter (fun cls =>
          match analyze cls with
          | some a => a.superClass = some className
          | none => false) := by
  induction l generalizing acc with
  | nil => simp
  | cons cls l ih =>
    rw [List.foldl_cons, List.filter_cons]
    cases h : analyze cls with
    | none => simp only [h, ih]; rfl
    | some a =>
      by_cases hs : a.superClass = some className
      · simp [h, hs, ih]
      · simp [h, hs, ih]

/-- C9: in the subclass search every candidate of the universe is
attempted in turn, a candidate whose analysis fails (the oracle returns
`none`, the thrown error the source catches and ignores) does not abort or
skip the remaining candidates, and the result is exactly the successfully
analyzed candidates whose superclass equals the target name. -/
theorem findSubClasses_characterization (analyze : String → Option ClassAnalysis)
    (className : String) (allClasses : List String) :
    findSubClasses analyze className allClasses
      = allClasses.filter (fun cls =>
          match analyze cls with
          | some a => a.superClass = some className
          | none => false)
    ∧ ∀ cls, cls ∈ findSubClasses analyze className allClasses ↔
        cls ∈ allClasses ∧ ∃ a, analyze cls = some a ∧ a.superClass = some className := by
  have hgo := findSubClasses_go analyze className allClasses []
  refine ⟨by simpa [findSubClasses] using hgo, fun cls => ?_⟩
  rw [findSubClasses, hgo]
  simp only [List.nil_append, List.mem_filter]
  constructor
  · rintro ⟨hmem, hp⟩
    refine ⟨hmem, ?_⟩
    cases h : analyze cls with
    | none => rw [h] at hp; simp at hp
    | some a =>
      rw [h] at hp
      exact ⟨a, rfl, by simpa using hp⟩
  · rintro ⟨hmem, a, ha, hs⟩
    exact ⟨hmem, by simp [ha, hs]⟩

/-- Concrete oracle for the subclass-search witness: one candidate fails
to analyze, one succeeds with the target superclass. -/
def witnessOracle : String → Option ClassAnalysis := fun s =>
  if s = "Good" then
    some
      { className := "Good", packageName := "", modifiers := [], superClass := some "T"
        interfaces := [], fields := [], methods := [] }
  else none

/-- Witness for C9: the failing candidate is skipped without aborting and
the succeeding one is returned. -/
theorem findSubClasses_characterization_witness :
    findSubClasses witnessOracle "T" ["Bad", "Good"] = ["Good"] :=
  ((findSubClasses_characterization witnessOracle "T" ["Bad", "Good"]).1).trans (by decide)

/-! ## C5: slot bound for variable-table entries -/

/-- C5: on a variable-table data line processed for the current method,
an entry whose slot is at or beyond the method's parameter count leaves
the whole parser state unchanged (it is discarded and can never affect any
parameter name), while an in-range slot is recorded in the pending map and
changes nothing else. -/
theorem lvt_slot_bound (st : ParseState) (m : ClassMethod) (ℓ : String) (s : Nat)
    (nm : List Char) (hcur : st.current = some m) (hlvt : st.inLocalVariableTable = true)
    (hmatch : lvtDataMatch (jsTrimL ℓ.data) = some (s, nm)) :
    (m.parameters.length ≤ s → stepLine st ℓ = st) ∧
      (s < m.parameters.length →
        stepLine st ℓ = { st with methodParameters := (s, String.mk nm) :: st.methodParameters }) := by
  obtain ⟨c, cs, ht, hdig⟩ := jsTrimL_match_digit ℓ.data (s, nm) hmatch
  obtain ⟨hdecl, hmeth, hhdr, hstart, hslot, hend⟩ := digit_line_branches c cs hdig
  rw [ht] at hmatch
  constructor
  · intro hge
    have hnlt : ¬ s < m.parameters.length := not_lt.mpr hge
    rw [stepLine, ht]
    simp only [stepTrimmed, hdecl, hmeth, Bool.false_eq_true, if_false, if_neg hhdr]
    rw [lvtAndEnd, hcur]
    simp only [hlvt, if_true, hstart, hslot, Bool.or_self, Bool.false_eq_true, if_false,
      if_neg (List.cons_ne_nil c cs), hmatch]
    simp only [hnlt, if_false]
    rw [endPhase, hcur]
    simp [hend]
  · intro hlt
    rw [stepLine, ht]
    simp only [stepTrimmed, hdecl, hmeth, Bool.false_eq_true, if_false, if_neg hhdr]
    rw [lvtAndEnd, hcur]
    simp only [hlvt, if_true, hstart, hslot, Bool.or_self, Bool.false_eq_true, if_false,
      if_neg (List.cons_ne_nil c cs), hmatch]
    simp only [hlt, if_true]
    rw [endPhase]
    simp [hcur, hend]

/-- Concrete one-parameter method for the step-level witnesses. -/
def witnessMethod : ClassMethod :=
  { name := "foo", returnType := "void", parameters := ["int"], modifiers := ["public"] }

/-- Concrete state inside a variable table for the step-level witnesses. -/
def witnessState : ParseState :=
  { analysis := initAnalysis "X", current := some witnessMethod,
    inLocalVariableTable := true, methodParameters := [] }

/-- Witness for C5: the data line with slot 1 is discarded for the
one-parameter current method. -/
theorem lvt_slot_bound_witness : stepLine witnessState "0 6 1 y I" = witnessState :=
  (lvt_slot_bound witnessState witnessMethod "0 6 1 y I" 1 ['y'] rfl rfl (by decide)).1
    (by decide)

/-! ## C10: constructor-shaped lines are silently dropped -/

/-- C10: a line that passes the method-line test but whose
modifier-stripped text before the first left parenthesis contains no
space (as for `public Foo();`) makes extraction return `null`, and the
line loop appends nothing: the methods visible in the output list are
unchanged. -/
theorem constructor_line_dropped (st : ParseState) (ℓ : String)
    (hnotdecl : isClassDeclLine (jsTrimL ℓ.data) = false)
    (hmeth : isMethodLine (jsTrimL ℓ.data) = true)
    (hnospace : ∀ pi, idxOfChar? '(' (jsTrimL ℓ.data) = some pi →
      ' ' ∉ jsTrimL (jsSubstring (jsTrimL ℓ.data) (stripMods (jsTrimL ℓ.data)).2 pi)) :
    parseMethodFromJavapL (jsTrimL ℓ.data) = none ∧
      liveMethods (stepLine st ℓ) = liveMethods st := by
  have hnone : parseMethodFromJavapL (jsTrimL ℓ.data) = none := by
    rw [parseMethodFromJavapL]
    simp only [jsTrimL_idem]
    cases hpi : idxOfChar? '(' (jsTrimL ℓ.data) with
    | none => rfl
    | some pi =>
      cases hk : idxOfChar? ')' ((jsTrimL ℓ.data).drop pi) with
      | none =>
        dsimp only
        rw [hk]
      | some k =>
        dsimp only
        rw [hk]
        dsimp only
        rw [lastIdxOfChar?_eq_none ' ' _ (hnospace pi hpi)]
  refine ⟨hnone, ?_⟩
  rw [stepLine]
  simp [stepTrimmed, hnotdecl, hmeth, hnone, liveMethods]

/-- Concrete state with no current method for the method-line witnesses. -/
def witnessStateIdle : ParseState :=
  { analysis := initAnalysis "X", current := none,
    inLocalVariableTable := false, methodParameters := [] }

/-- Witness for C10 at the constructor line `public Foo();`. -/
theorem constructor_line_dropped_witness :
    parseMethodFromJavapL (jsTrimL ("public Foo();").data) = none ∧
      liveMethods (stepLine witnessStateIdle "public Foo();") = liveMethods witnessStateIdle :=
  constructor_line_dropped witnessStateIdle "public Foo();" (by decide) (by decide)
    (by
      intro pi hpi
      have h10 : idxOfChar? '(' (jsTrimL ("public Foo();").data) = some 10 := by decide
      rw [h10] at hpi
      injection hpi with hpi10
      rw [← hpi10]
      decide)

/-! ## C4: which lines trigger method extraction -/

/-- C4 (amended): on a line that passes the method-line test (it must
begin with `public `, not `private` or `protected`) and is not a
class-declaration line, the loop runs method extraction and appends a
`MethodDescription` exactly when extraction succeeds; the extraction
result becomes the current method. -/
theorem public_method_line_extraction (st : ParseState) (ℓ : String)
    (hnotdecl : isClassDeclLine (jsTrimL ℓ.data) = false)
    (hmeth : isMethodLine (jsTrimL ℓ.data) = true) :
    liveMethods (stepLine st ℓ)
        = liveMethods st ++ (parseMethodFromJavapL (jsTrimL ℓ.data)).toList ∧
      (stepLine st ℓ).current = parseMethodFromJavapL (jsTrimL ℓ.data) := by
  rw [stepLine]
  cases hp : parseMethodFromJavapL (jsTrimL ℓ.data) with
  | none => simp [stepTrimmed, hnotdecl, hmeth, hp, liveMethods]
  | some m => simp [stepTrimmed, hnotdecl, hmeth, hp, liveMethods]

/-- C4 counterexample: a line beginning with the access modifier
`private` and containing balanced parentheses does not trigger method
extraction — the parse of a text consisting of such a line yields no
methods at all. -/
theorem private_method_line_ignored_cx :
    (parseLines ["private void foo(int x)", "\x7d"] "X").methods = [] := by decide

/-- Witness for C4 at a plain public method line. -/
theorem public_method_line_extraction_witness :
    liveMethods (stepLine witnessStateIdle "public void foo(int x)")
        = liveMethods witnessStateIdle
          ++ (parseMethodFromJavapL (jsTrimL ("public void foo(int x)").data)).toList ∧
      (stepLine witnessStateIdle "public void foo(int x)").current
        = parseMethodFromJavapL (jsTrimL ("public void foo(int x)").data) :=
  public_method_line_extraction witnessStateIdle "public void foo(int x)" (by decide) (by decide)

/-! ## C2: a new method line does not apply pending names -/

/-- C2 counterexample: a new method-signature line arrives while the
previous method still has a pending variable-table name for its only
parameter; the pending name is discarded, not applied — the first method
keeps the bare descriptor instead of the recovered one. -/
theorem pending_discarded_on_new_method_cx :
    (parseLines ["public void foo(int);", "LocalVariableTable:", "0 6 0 x I",
        "public void bar();", "\x7d"] "Foo").methods.map ClassMethod.parameters
      = [["int"], []] ∧ (["int"] : List String) ≠ ["int x"] :=
  ⟨by decide, by decide⟩

/-- C2 (amended): when a new method-signature line parses successfully
while a previous method is current, the previous method is finalized
unchanged (its pending names are never applied) and the pending map is
cleared without being applied; the new method becomes current. -/
theorem new_method_line_discards_pending (st : ParseState) (m m' : ClassMethod) (ℓ : String)
    (hcur : st.current = some m)
    (hnotdecl : isClassDeclLine (jsTrimL ℓ.data) = false)
    (hmeth : isMethodLine (jsTrimL ℓ.data) = true)
    (hparse : parseMethodFromJavapL (jsTrimL ℓ.data) = some m') :
    stepLine st ℓ =
      { st with
        analysis := { st.analysis with methods := st.analysis.methods ++ [m] }
        current := some m'
        methodParameters := [] } := by
  rw [stepLine]
  simp [stepTrimmed, hnotdecl, hmeth, hparse, hcur]

/-- Concrete state with a pending recovered name for the C2 witness. -/
def witnessStatePending : ParseState :=
  { analysis := initAnalysis "X", current := some witnessMethod,
    inLocalVariableTable := true, methodParameters := [(0, "x")] }

/-- Witness for C2: the pending name for slot 0 is dropped when the next
method line arrives. -/
theorem new_method_line_discards_pending_witness :
    stepLine witnessStatePending "public void bar();" =
      { witnessStatePending with
        analysis :=
          { witnessStatePending.analysis with
            methods := witnessStatePending.analysis.methods ++ [witnessMethod] }
        current := some
          { name := "bar", returnType := "void", parameters := [], modifiers := ["public"] }
        methodParameters := [] } :=
  new_method_line_discards_pending witnessStatePending witnessMethod
    { name := "bar", returnType := "void", parameters := [], modifiers := ["public"] }
    "public void bar();" rfl (by decide) (by decide) (by decide)

/-! ## C1: the flush is conditional on a nonempty pending map -/

/-- C1 counterexample: a method whose variable table is absent ends the
parse with a bare type descriptor — no name is recovered or synthesized,
because the rewrite is skipped entirely when the pending map is empty. -/
theorem flush_skipped_when_pending_empty_cx :
    (parseLines ["public void foo(int);", "\x7d"] "Foo").methods.map ClassMethod.parameters
      = [["int"]] ∧ (("int" : String).data.contains ' ') = false :=
  ⟨by decide, by decide⟩

/-- C1 (amended): at a closing-brace terminator the current method is
finalized exactly once — it leaves current status, so no later line can
rewrite it — and the parameter rewrite runs only when the pending map is
nonempty: with an empty map the method is finalized with its parameters
untouched, with a nonempty map every position becomes the stored
descriptor plus the recovered-or-synthesized name. -/
theorem flush_at_terminator (st : ParseState) (m : ClassMethod)
    (hcur : st.current = some m) :
    stepLine st "\x7d" =
        { analysis :=
            { st.analysis with
              methods := st.analysis.methods ++ [flushIfPending st.methodParameters m] }
          current := none
          inLocalVariableTable := false
          methodParameters := [] } ∧
      (st.methodParameters = [] → flushIfPending st.methodParameters m = m) ∧
      (st.methodParameters ≠ [] →
        (flushIfPending st.methodParameters m).parameters
          = m.parameters.enum.map (fun e =>
              e.2 ++ " " ++ (lookupSlot st.methodParameters e.1).getD (synthName e.1))) := by
  refine ⟨?_, fun h => by simp [flushIfPending, h],
    fun h => by simp [flushIfPending, h, flushParams]⟩
  rw [stepLine]
  have ht : jsTrimL ("\x7d").data = ['\x7d'] := by decide
  rw [ht]
  have h1 : isClassDeclLine ['\x7d'] = false := by decide
  have h2 : isMethodLine ['\x7d'] = false := by decide
  have h3 : ¬ (['\x7d'] = ("LocalVariableTable:").data) := by decide
  have h4 : startsWithL "Start" ['\x7d'] = false := by decide
  have h5 : startsWithL "Slot" ['\x7d'] = false := by decide
  have h6 : lvtDataMatch ['\x7d'] = none := by decide
  have h7 : isEndLine ['\x7d'] = true := by decide
  simp only [stepTrimmed, h1, h2, Bool.false_eq_true, if_false, if_neg h3]
  have hend : endPhase st ['\x7d'] =
      { analysis :=
          { st.analysis with
            methods := st.analysis.methods ++ [flushIfPending st.methodParameters m] }
        current := none
        inLocalVariableTable := false
        methodParameters := [] } := by
    rw [endPhase, hcur]
    dsimp only
    rw [if_pos h7]
  rw [lvtAndEnd, hcur]
  dsimp only
  by_cases hl : st.inLocalVariableTable
  · rw [if_pos hl, if_neg (by decide : ¬ ((startsWithL "Start" ['\x7d']
      || startsWithL "Slot" ['\x7d']) = true)),
      if_neg (by decide : ¬ ((['\x7d'] : List Char) = [])), h6]
    exact hend
  · rw [if_neg hl]
    exact hend

/-- Witness for C1 at a state with an empty pending map. -/
theorem flush_at_terminator_witness :
    stepLine witnessState "\x7d" =
        { analysis :=
            { witnessState.analysis with
              methods := witnessState.analysis.methods
                ++ [flushIfPending witnessState.methodParameters witnessMethod] }
          current := none
          inLocalVariableTable := false
          methodParameters := [] } ∧
      flushIfPending witnessState.methodParameters witnessMethod = witnessMethod := by
  have h := flush_at_terminator witnessState witnessMethod rfl
  exact ⟨h.1, h.2.1 rfl⟩

/-! ## C7: graceful degradation without a declaration line -/

/-- Projection of the declaration-derived fields of an analysis. -/
def declView (a : ClassAnalysis) :
    String × String × List String × Option String × List String :=
  (a.className, a.packageName, a.modifiers, a.superClass, a.interfaces)

theorem endPhase_declView (st : ParseState) (t : List Char) :
    declView (endPhase st t).analysis = declView st.analysis := by
  unfold endPhase
  cases st.current <;> simp
  split <;> simp [declView]

theorem lvtAndEnd_declView (st : ParseState) (t : List Char) :
    declView (lvtAndEnd st t).analysis = declView st.analysis := by
  unfold lvtAndEnd
  cases st.current with
  | none => exact endPhase_declView _ _
  | some m =>
    by_cases h1 : st.inLocalVariableTable <;> simp [h1]
    · split
      · rfl
      · split
        · rfl
        · split <;> [skip; skip] <;> first
          | exact endPhase_declView _ _
          | (split <;> exact endPhase_declView _ _)
    · exact endPhase_declView _ _

theorem stepTrimmed_declView (st : ParseState) (t : List Char)
    (h : isClassDeclLine t = false) :
    declView (stepTrimmed st t).analysis = declView st.analysis := by
  unfold stepTrimmed
  rw [if_neg (by simp [h])]
  split
  · split <;> simp [declView]
  · split
    · rfl
    · exact lvtAndEnd_declView _ _

theorem foldl_declView (lines : List String) (st : ParseState)
    (h : ∀ l ∈ lines, isClassDeclLine (jsTrimL l.data) = false) :
    declView ((lines.foldl stepLine st).analysis) = declView st.analysis := by
  induction lines generalizing st with
  | nil => rfl
  | cons l lines ih =>
    rw [List.foldl_cons, ih _ (fun x hx => h x (List.mem_cons_of_mem _ hx)),
      stepLine, stepTrimmed_declView _ _ (h l (List.mem_cons_self _ _))]

/-- C7: a disassembly text with no class-declaration line parses without
failure; the declaration fields keep their defaults (simple name derived
from the caller-passed identifier, empty package, empty modifiers, absent
superclass, empty interfaces) while the methods list is whatever the
method-line rules produced. -/
theorem missing_declaration_defaults (lines : List String) (cid : String)
    (h : ∀ l ∈ lines, isClassDeclLine (jsTrimL l.data) = false) :
    (parseLines lines cid).className = lastSegment cid ∧
      (parseLines lines cid).packageName = "" ∧
      (parseLines lines cid).modifiers = [] ∧
      (parseLines lines cid).superClass = none ∧
      (parseLines lines cid).interfaces = [] := by
  have hv := foldl_declView lines
    { analysis := initAnalysis cid, current := none,
      inLocalVariableTable := false, methodParameters := [] } h
  rw [parseLines]
  simp only [declView, initAnalysis, Prod.mk.injEq] at hv
  exact ⟨hv.1, hv.2.1, hv.2.2.1, hv.2.2.2.1, hv.2.2.2.2⟩

/-- Witness for C7: a single method line and no declaration line yields
defaults plus a populated methods list. -/
theorem missing_declaration_defaults_witness :
    ((parseLines ["public void foo();"] "com.example.Foo").className = lastSegment "com.example.Foo" ∧
      (parseLines ["public void foo();"] "com.example.Foo").packageName = "" ∧
      (parseLines ["public void foo();"] "com.example.Foo").modifiers = [] ∧
      (parseLines ["public void foo();"] "com.example.Foo").superClass = none ∧
      (parseLines ["public void foo();"] "com.example.Foo").interfaces = []) ∧
    (parseLines ["public void foo();"] "com.example.Foo").methods
      = [{ name := "foo", returnType := "void", parameters := [], modifiers := ["public"] }] :=
  ⟨missing_declaration_defaults ["public void foo();"] "com.example.Foo" (by decide),
    by decide⟩

/-! ## C6: generic-aware parameter splitting -/

/-- C6: splitting is generic-aware — the embedded-comma example splits
into exactly its two top-level fragments; an all-whitespace (or empty) raw
parameter list yields zero parameters; and every produced parameter is a
nonempty trimmed fragment. -/
theorem generic_parameter_splitting :
    splitParameters "java.util.Map<K, V> m, int n" = ["java.util.Map<K, V> m", "int n"] ∧
      (∀ raw : List Char, (∀ c ∈ raw, isJsSpace c = true) → extractParametersL raw = []) ∧
      (∀ raw : List Char, ∀ p ∈ extractParametersL raw, p.data ≠ [] ∧ jsTrimL p.data = p.data) := by
  refine ⟨by decide, ?_, ?_⟩
  · intro raw h
    simp [extractParametersL, jsTrimL_all_space raw h]
  · intro raw p hp
    rw [extractParametersL] at hp
    by_cases he : jsTrimL raw = []
    · simp [he] at hp
    · simp only [he, if_false, List.mem_map, List.mem_filter] at hp
      obtain ⟨q, ⟨⟨r, hr, hq⟩, hne⟩, hpq⟩ := hp
      have hd : p.data = q := by rw [← hpq]
      refine ⟨by simpa [hd] using hne, ?_⟩
      rw [hd, ← hq, jsTrimL_idem]

/-- Witness for C6 instantiating the quantified parts at concrete
inputs. -/
theorem generic_parameter_splitting_witness :
    extractParametersL ("  ").data = [] ∧
      (("int x" : String).data ≠ [] ∧ jsTrimL ("int x" : String).data = ("int x" : String).data) :=
  ⟨generic_parameter_splitting.2.1 ("  ").data (by decide),
    generic_parameter_splitting.2.2 ("int x, ").data "int x" (by decide)⟩

/-! ## C8: modifier vocabulary and order -/

/-- C8 counterexample: a method line repeating an access modifier is
parsed with a duplicated modifiers list, refuting the no-duplicates
invariant. -/
theorem duplicate_modifiers_cx :
    (parseLines ["public public void foo()"] "X").methods.map ClassMethod.modifiers
        = [["public", "public"]] ∧
      ¬ (["public", "public"] : List String).Nodup :=
  ⟨by decide, by decide⟩

theorem scanVocabGo_mem (vocab : List String) (prevWord : Bool) (k : Nat) (cs : List Char)
    (w : String) (h : w ∈ scanVocabGo vocab prevWord k cs) : w ∈ vocab := by
  induction cs generalizing prevWord k with
  | nil => simp [scanVocabGo] at h
  | cons c rest ih =>
    cases k with
    | succ k' =>
      rw [scanVocabGo] at h
      exact ih _ _ h
    | zero =>
      rw [scanVocabGo] at h
      cases hf : vocab.find? (fun w => vocabHere w prevWord (c :: rest)) with
      | none =>
        rw [hf] at h
        exact ih _ _ h
      | some w' =>
        rw [hf] at h
        rcases List.mem_cons.mp h with rfl | hmem
        · exact List.mem_of_find?_eq_some hf
        · exact ih _ _ hmem

theorem stripModsGo_mem (fuel : Nat) (cs : List Char) (acc : List String) (idx : Nat)
    (w : String) (h : w ∈ (stripModsGo fuel cs acc idx).1) :
    w ∈ acc ∨ w ∈ methodModifierWords := by
  induction fuel generalizing cs acc idx with
  | zero => exact Or.inl (by simpa [stripModsGo] using h)
  | succ fuel ih =>
    rw [stripModsGo] at h
    cases hf : findModifier cs with
    | none =>
      rw [hf] at h
      exact Or.inl h
    | some m =>
      rw [hf] at h
      rcases ih _ _ _ h with hacc | hvocab
      · rcases List.mem_append.mp hacc with h1 | h2
        · exact Or.inl h1
        · have hm : w = m := by simpa using h2
          subst hm
          rw [findModifier] at hf
          exact Or.inr (List.mem_of_find?_eq_some hf)
      · exact Or.inr hvocab

theorem stripMods_mem (cs : List Char) (w : String) (h : w ∈ (stripMods cs).1) :
    w ∈ methodModifierWords := by
  rcases stripModsGo_mem _ _ _ _ _ h with h1 | h2
  · simp at h1
  · exact h2

theorem parseMethod_modifiers (line : List Char) (m : ClassMethod)
    (h : parseMethodFromJavapL line = some m) :
    ∀ w ∈ m.modifiers, w ∈ methodModifierWords := by
  intro w hw
  simp only [parseMethodFromJavapL] at h
  cases h1 : idxOfChar? '(' (jsTrimL line) with
  | none => rw [h1] at h; cases h
  | some pi =>
    rw [h1] at h
    dsimp only at h
    cases h2 : idxOfChar? ')' ((jsTrimL line).drop pi) with
    | none => rw [h2] at h; cases h
    | some k =>
      rw [h2] at h
      dsimp only at h
      cases h3 : lastIdxOfChar? ' '
          (jsTrimL (jsSubstring (jsTrimL line) (stripMods (jsTrimL line)).2 pi)) with
      | none => rw [h3] at h; cases h
      | some ls =>
        rw [h3] at h
        dsimp only at h
        injection h with hm
        rw [← hm] at hw
        exact stripMods_mem _ _ hw

theorem flushIfPending_modifiers (pending : List (Nat × String)) (m : ClassMethod) :
    (flushIfPending pending m).modifiers = m.modifiers := by
  rw [flushIfPending]
  split <;> rfl

theorem parseClassDeclaration_methods (t : List Char) (a : ClassAnalysis) :
    (parseClassDeclaration t a).methods = a.methods := by
  unfold parseClassDeclaration
  cases scanFirst matchClassNameAt t <;>
    cases scanFirst matchExtendsAt t <;>
      cases scanFirst matchImplementsAt t <;>
        simp <;> split <;> simp

theorem parseClassDeclaration_modifiers (t : List Char) (a : ClassAnalysis) :
    (parseClassDeclaration t a).modifiers = classDeclModsL t := by
  unfold parseClassDeclaration
  cases scanFirst matchClassNameAt t <;>
    cases scanFirst matchExtendsAt t <;>
      cases scanFirst matchImplementsAt t <;>
        simp <;> split <;> simp

/-- Invariant: every recorded modifier token stays inside its fixed
vocabulary, for the class modifiers and for every method (finalized or
current). -/
def modsOK (st : ParseState) : Prop :=
  (∀ w ∈ st.analysis.modifiers, w ∈ classModVocab) ∧
    (∀ m ∈ liveMethods st, ∀ w ∈ m.modifiers, w ∈ methodModifierWords)

/-- Transfer of the modifier invariant along a state transformation that
keeps the class modifiers and lets every live method inherit its
modifiers from an old live method. -/
theorem modsOK_mk (st' st : ParseState) (h : modsOK st)
    (hmods : st'.analysis.modifiers = st.analysis.modifiers)
    (hlive : ∀ m' ∈ liveMethods st', ∃ m ∈ liveMethods st, m'.modifiers = m.modifiers) :
    modsOK st' := by
  refine ⟨fun w hw => h.1 w (hmods ▸ hw), fun m' hm' w hw => ?_⟩
  obtain ⟨m, hm, he⟩ := hlive m' hm'
  exact h.2 m hm w (he ▸ hw)

theorem endPhase_modsOK (st : ParseState) (t : List Char) (h : modsOK st) :
    modsOK (endPhase st t) := by
  cases hc : st.current with
  | none =>
    have : endPhase st t = st := by rw [endPhase, hc]
    rw [this]
    exact h
  | some m =>
    by_cases he : isEndLine t = true
    · have hstep : endPhase st t =
          { analysis :=
              { st.analysis with
                methods := st.analysis.methods ++ [flushIfPending st.methodParameters m] }
            current := none
            inLocalVariableTable := false
            methodParameters := [] } := by
        rw [endPhase, hc]
        dsimp only
        rw [if_pos he]
      rw [hstep]
      refine modsOK_mk _ st h rfl ?_
      intro m' hm'
      simp only [liveMethods, Option.toList_none, List.append_nil, List.mem_append,
        List.mem_singleton] at hm'
      rcases hm' with hm' | rfl
      · exact ⟨m', by simp [liveMethods, hm'], rfl⟩
      · exact ⟨m, by simp [liveMethods, hc], flushIfPending_modifiers _ _⟩
    · have : endPhase st t = st := by
        rw [endPhase, hc]
        dsimp only
        rw [if_neg he]
      rw [this]
      exact h

theorem lvtAndEnd_modsOK (st : ParseState) (t : List Char) (h : modsOK st) :
    modsOK (lvtAndEnd st t) := by
  cases hc : st.current with
  | none =>
    have : lvtAndEnd st t = endPhase st t := by rw [lvtAndEnd, hc]
    rw [this]
    exact endPhase_modsOK _ _ h
  | some m =>
    by_cases hl : st.inLocalVariableTable = true
    · by_cases hss : (startsWithL "Start" t || startsWithL "Slot" t) = true
      · have : lvtAndEnd st t = st := by
          rw [lvtAndEnd, hc]
          dsimp only
          rw [if_pos hl, if_pos hss]
        rw [this]
        exact h
      · by_cases hni : t = []
        · have hstep : lvtAndEnd st t =
              { st with
                current := some (flushIfPending st.methodParameters m)
                inLocalVariableTable := false
                methodParameters := [] } := by
            rw [lvtAndEnd, hc]
            dsimp only
            rw [if_pos hl, if_neg hss, if_pos hni]
          rw [hstep]
          refine modsOK_mk _ st h rfl ?_
          intro m' hm'
          simp only [liveMethods, Option.toList_some, List.mem_append,
            List.mem_singleton] at hm'
          rcases hm' with hm' | rfl
          · exact ⟨m', by simp [liveMethods, hm'], rfl⟩
          · exact ⟨m, by simp [liveMethods, hc], flushIfPending_modifiers _ _⟩
        · have hstep : lvtAndEnd st t =
              endPhase
                (match lvtDataMatch t with
                 | some p =>
                   if p.1 < m.parameters.length then
                     { st with methodParameters := (p.1, String.mk p.2) :: st.methodParameters }
                   else st
                 | none => st) t := by
            rw [lvtAndEnd, hc]
            dsimp only
            rw [if_pos hl, if_neg hss, if_neg hni]
          rw [hstep]
          apply endPhase_modsOK
          cases hd : lvtDataMatch t with
          | none => exact h
          | some p =>
            dsimp only
            by_cases hp : p.1 < m.parameters.length
            · rw [if_pos hp]
              exact modsOK_mk _ st h rfl (fun m' hm' => ⟨m', by simpa [liveMethods] using hm', rfl⟩)
            · rw [if_neg hp]
              exact h
    · have : lvtAndEnd st t = endPhase st t := by
        rw [lvtAndEnd, hc]
        dsimp only
        rw [if_neg hl]
      rw [this]
      exact endPhase_modsOK _ _ h

theorem stepTrimmed_modsOK (st : ParseState) (t : List Char) (h : modsOK st) :
    modsOK (stepTrimmed st t) := by
  by_cases hd : isClassDeclLine t = true
  · have hstep : stepTrimmed st t = { st with analysis := parseClassDeclaration t st.analysis } := by
      rw [stepTrimmed, if_pos hd]
    rw [hstep]
    refine ⟨?_, ?_⟩
    · intro w hw
      have : w ∈ (parseClassDeclaration t st.analysis).modifiers := hw
      rw [parseClassDeclaration_modifiers] at this
      exact scanVocabGo_mem _ _ _ _ _ this
    · intro m' hm' w hw
      refine h.2 m' ?_ w hw
      simpa [liveMethods, parseClassDeclaration_methods] using hm'
  · by_cases hm : isMethodLine t = true
    · cases hp : parseMethodFromJavapL t with
      | some m =>
        have hstep : stepTrimmed st t =
            { st with
              analysis := { st.analysis with methods := st.analysis.methods ++ st.current.toList }
              current := some m
              methodParameters := [] } := by
          rw [stepTrimmed, if_neg (by simp [hd]), if_pos hm, hp]
        rw [hstep]
        refine ⟨h.1, ?_⟩
        intro m' hm' w hw
        simp only [liveMethods, Option.toList_some, List.mem_append,
          List.mem_singleton, List.append_assoc] at hm'
        rcases hm' with hm' | (hm' | rfl)
        · exact h.2 m' (by simp [liveMethods, hm']) w hw
        · exact h.2 m' (by simp [liveMethods, hm']) w hw
        · exact parseMethod_modifiers _ _ hp w hw
      | none =>
        have hstep : stepTrimmed st t =
            { st with
              analysis := { st.analysis with methods := st.analysis.methods ++ st.current.toList }
              current := none } := by
          rw [stepTrimmed, if_neg (by simp [hd]), if_pos hm, hp]
        rw [hstep]
        refine modsOK_mk _ st h rfl ?_
        intro m' hm'
        simp only [liveMethods, Option.toList_none, List.append_nil, List.mem_append] at hm'
        exact ⟨m', by simpa [liveMethods] using hm', rfl⟩
    · by_cases hh : t = "LocalVariableTable:".data
      · have hstep : stepTrimmed st t = { st with inLocalVariableTable := true } := by
          rw [stepTrimmed, if_neg (by simp [hd]), if_neg (by simp [hm]), if_pos hh]
        rw [hstep]
        exact modsOK_mk _ st h rfl (fun m' hm' => ⟨m', by simpa [liveMethods] using hm', rfl⟩)
      · have hstep : stepTrimmed st t = lvtAndEnd st t := by
          rw [stepTrimmed, if_neg (by simp [hd]), if_neg (by simp [hm]), if_neg hh]
        rw [hstep]
        exact lvtAndEnd_modsOK _ _ h

theorem foldl_modsOK (lines : List String) (st : ParseState) (h : modsOK st) :
    modsOK (lines.foldl stepLine st) := by
  induction lines generalizing st with
  | nil => exact h
  | cons l lines ih => exact ih _ (stepTrimmed_modsOK _ _ h)

/-- Absence test for the modifier regex: no suffix of the text begins
with a vocabulary word. -/
def noVocabHit (vocab : List String) (cs : List Char) : Bool :=
  cs.tails.all (fun s => vocab.all (fun w => !(w.data.isPrefixOf s)))

theorem scanVocabGo_nil_of_noVocabHit (vocab : List String) (cs : List Char)
    (h : noVocabHit vocab cs = true) :
    ∀ prevWord, scanVocabGo vocab prevWord 0 cs = [] := by
  induction cs with
  | nil => intro prevWord; rfl
  | cons c rest ih =>
    intro prevWord
    have hparts : (vocab.all (fun w => !(w.data.isPrefixOf (c :: rest)))) = true ∧
        noVocabHit vocab rest = true := by
      rw [noVocabHit, List.tails_cons, List.all_cons] at h
      exact Bool.and_eq_true_iff.mp h
    have hf : vocab.find? (fun w => vocabHere w prevWord (c :: rest)) = none := by
      rw [List.find?_eq_none]
      intro w hw
      have hnp : w.data.isPrefixOf (c :: rest) = false := by
        have := List.all_eq_true.mp hparts.1 w hw
        simpa using this
      simp [vocabHere, hnp]
    rw [scanVocabGo, hf]
    exact ih hparts.2 _

/-- Concatenation of modifier words, each followed by a single space, as
they appear at the front of a declaration line. -/
def modsText (ws : List String) : List Char :=
  (ws.map (fun w => w.data ++ [' '])).flatten

theorem scanVocabGo_word (w : String) (hw : w ∈ classModVocab) (rest : List Char) :
    scanVocabGo classModVocab false 0 (w.data ++ ' ' :: rest)
      = w :: scanVocabGo classModVocab false 0 rest := by
  fin_cases hw <;> rfl

theorem scanVocabGo_modsText (ws : List String) (tail : List Char)
    (hws : ∀ w ∈ ws, w ∈ classModVocab) (htail : noVocabHit classModVocab tail = true) :
    scanVocabGo classModVocab false 0 (modsText ws ++ tail) = ws := by
  induction ws with
  | nil => simpa [modsText] using scanVocabGo_nil_of_noVocabHit _ _ htail false
  | cons w ws ih =>
    have hsplit : modsText (w :: ws) ++ tail = w.data ++ ' ' :: (modsText ws ++ tail) := by
      simp [modsText]
    rw [hsplit, scanVocabGo_word w (hws w (List.mem_cons_self _ _)),
      ih (fun x hx => hws x (List.mem_cons_of_mem _ hx))]

/-- C8 (amended): every modifiers list the parser produces — the class
modifiers and every method's modifiers — stays inside its fixed
vocabulary, and the class-declaration extraction returns the line's
vocabulary tokens in their order of appearance (duplicates included when
a token repeats, which is what the counterexample exhibits); the
no-duplicates part of the claim does not hold. -/
theorem modifier_vocab_and_order :
    (∀ (lines : List String) (cid : String),
        ∀ w ∈ (parseLines lines cid).modifiers, w ∈ classModVocab) ∧
      (∀ (lines : List String) (cid : String),
        ∀ m ∈ (parseLines lines cid).methods, ∀ w ∈ m.modifiers, w ∈ methodModifierWords) ∧
      (∀ (ws : List String) (tail : List Char), (∀ w ∈ ws, w ∈ classModVocab) →
        noVocabHit classModVocab tail = true →
        classDeclModsL (modsText ws ++ tail) = ws) := by
  have hinv : ∀ (lines : List String) (cid : String),
      modsOK (lines.foldl stepLine
        { analysis := initAnalysis cid, current := none,
          inLocalVariableTable := false, methodParameters := [] }) := by
    intro lines cid
    apply foldl_modsOK
    exact ⟨by simp [initAnalysis], by simp [liveMethods, initAnalysis]⟩
  refine ⟨?_, ?_, ?_⟩
  · intro lines cid w hw
    exact (hinv lines cid).1 w (by simpa [parseLines] using hw)
  · intro lines cid m hm w hw
    refine (hinv lines cid).2 m ?_ w hw
    simpa [parseLines, liveMethods] using hm
  · intro ws tail hws htail
    exact scanVocabGo_modsText ws tail hws htail

/-- Witness for C8 instantiating all three parts at concrete inputs. -/
theorem modifier_vocab_and_order_witness :
    ("public" : String) ∈ classModVocab ∧
      ("static" : String) ∈ methodModifierWords ∧
      classDeclModsL (modsText ["public", "static"] ++ ("class a.B").data)
        = ["public", "static"] := by
  refine ⟨?_, ?_, ?_⟩
  · exact modifier_vocab_and_order.1 ["public class Foo"] "X" "public" (by decide)
  · exact modifier_vocab_and_order.2.1 ["public static void foo()"] "X"
      { name := "foo", returnType := "void", parameters := [], modifiers := ["public", "static"] }
      (by decide) "static" (by decide)
  · exact modifier_vocab_and_order.2.2 ["public", "static"] ("class a.B").data
      (by decide) (by decide)

end JavaClassAnalyzer
